import Mathlib

/-!
Verification of the crafting-check Monte-Carlo simulator (`main.py`).

The randomness of `np.random` is modelled by an explicit stream
`g : Nat → Nat` of raw draws together with a stream position `pos`; a raw
draw `x` for a `die`-sided die yields the outcome `x % die + 1`, which is
uniform on `[1, die]` when the raw draws are uniform.  Every function that
consumes randomness takes `g` and `pos` explicitly, and the model records
how far the position advances.

`craft` recurses on batch exhaustion; the recursion is modelled with an
explicit `fuel` parameter (the Python recursion has no bound), so
`craft fuel … = some r` means the source recursion returns `r` within
`fuel` nested invocations.  Besides the boolean result the model also
returns the number of check results actually processed by the state
machine and the final stream position, so that the spec's claims about
consumed checks and about the random stream can be stated.
-/

/-- Errors the Python process can raise in the fragment under study.
`valueError` is numpy's error for `randint(1, die+1)` with `die < 1`;
`zeroDivisionError` arises from `sum(xs)/len(xs)` on the empty list.
`configError` is modelled from the spec: the "descriptive configuration
error" §7 asks for; the source never produces it, and it exists only so
that its absence can be stated. -/
inductive PyErr where
  | valueError : PyErr
  | zeroDivisionError : PyErr
  | configError : PyErr
  deriving DecidableEq, Repr

/-- Result of running the `for result in make_checks(...)` loop of `craft`
over a finite list of check results: the resolved outcome (`none` when the
list was exhausted unresolved), the final `n_successes` and
`n_consec_fails`, and how many check results were processed. -/
structure LoopRes where
  outcome : Option Bool
  nS : Int
  nCF : Int
  consumed : Nat
  deriving DecidableEq, Repr

/-- One d20 outcome: raw draw `g i` mapped into `[1, 20]`. -/
def rollD20 (g : Nat → Nat) (i : Nat) : Nat := g i % 20 + 1

/-- `roll(die=die, number=number)` from the source:
`np.random.randint(1, die + 1, size=number)`.  numpy raises `ValueError`
when `low ≥ high`, i.e. when `die < 1`; otherwise each entry is a value in
`[1, die]` drawn from the stream. -/
def roll (die : Int) (number : Nat) (g : Nat → Nat) (pos : Nat) :
    Except PyErr (List Int) :=
  if die < 1 then Except.error PyErr.valueError
  else Except.ok ((List.range number).map fun i => (g (pos + i) : Int) % die + 1)

/-- The boolean of one check made at stream index `i`:
`roll + modifier >= dc` ("meets it, beats it"). -/
def checkAt (dc modifier : Int) (g : Nat → Nat) (i : Nat) : Bool :=
  decide (dc ≤ (rollD20 g i : Int) + modifier)

/-- `make_checks(dc=dc, modifier=modifier, number=number)` from the source:
`roll(die=20, number=number) + modifier >= dc`, consuming stream indices
`pos, pos+1, …, pos+number-1`. -/
def make_checks (dc modifier : Int) (number : Nat) (g : Nat → Nat) (pos : Nat) :
    List Bool :=
  (List.range number).map fun i => checkAt dc modifier g (pos + i)

/-- The body of `craft`'s `for result in make_checks(...)` loop, translated
as a function of the list of check results: on a success increment
`n_successes`, reset `n_consec_fails` and return `True` once
`successes_required` is reached; on a failure increment `n_consec_fails`
and return `False` once it reaches 3. -/
def craftLoop (req nS nCF : Int) : List Bool → LoopRes
  | [] => ⟨none, nS, nCF, 0⟩
  | result :: rest =>
    if result then
      if req ≤ nS + 1 then ⟨some true, nS + 1, 0, 1⟩
      else
        let r := craftLoop req (nS + 1) 0 rest
        ⟨r.outcome, r.nS, r.nCF, r.consumed + 1⟩
    else
      if 3 ≤ nCF + 1 then ⟨some false, nS, nCF + 1, 1⟩
      else
        let r := craftLoop req nS (nCF + 1) rest
        ⟨r.outcome, r.nS, r.nCF, r.consumed + 1⟩

/-- `craft(dc=dc, modifier=modifier, successes_required=req, n_successes=nS,
n_consec_fails=nCF)` from the source, with explicit recursion fuel: draw a
chunk of `ROLL_CHUNK = 100` checks, run the loop, and recurse on the
updated counters when the chunk is exhausted unresolved.  On termination it
returns the boolean, the total number of check results processed by the
state machine, and the final stream position (each invocation draws the
full 100-element chunk up front, so the position advances by 100 per
invocation whatever the loop consumed). -/
def craft (fuel : Nat) (dc modifier req nS nCF : Int) (g : Nat → Nat)
    (pos : Nat) : Option (Bool × Nat × Nat) :=
  match fuel with
  | 0 => none
  | fuel + 1 =>
    let r := craftLoop req nS nCF (make_checks dc modifier 100 g pos)
    match r.outcome with
    | some b => some (b, r.consumed, pos + 100)
    | none =>
      match craft fuel dc modifier req r.nS r.nCF g (pos + 100) with
      | none => none
      | some (b, k, p) => some (b, 100 + k, p)

/-- Modelled from the spec (§4.3): the one-check-at-a-time transition rule
of the attempt state machine, on the state `(successes, consec_fails)`. -/
def stepCheck (req : Int) (s : Int × Int) (result : Bool) : (Int × Int) ⊕ Bool :=
  if result then
    if req ≤ s.1 + 1 then Sum.inr true else Sum.inl (s.1 + 1, 0)
  else
    if 3 ≤ s.2 + 1 then Sum.inr false else Sum.inl (s.1, s.2 + 1)

/-- Modelled from the spec (§4.3): the unbatched fold of `stepCheck` over a
sequence of check results, one at a time, in order. -/
def foldChecks (req : Int) (s : Int × Int) : List Bool → Option Bool × (Int × Int)
  | [] => (none, s)
  | r :: rest =>
    match stepCheck req s r with
    | Sum.inr b => (some b, s)
    | Sum.inl s2 => foldChecks req s2 rest

/-- Batched processing with an arbitrary chunk decomposition: run the
source's loop on each chunk in turn, carrying the state across chunks, as
`craft` does with its fixed chunks of 100. -/
def chunkFold (req : Int) (s : Int × Int) : List (List Bool) → Option Bool × (Int × Int)
  | [] => (none, s)
  | chunk :: rest =>
    let r := craftLoop req s.1 s.2 chunk
    match r.outcome with
    | some b => (some b, (r.nS, r.nCF))
    | none => chunkFold req (r.nS, r.nCF) rest

/-- Whether a list of check results contains a run of three consecutive
failures. -/
def hasThreeConsecFalse : List Bool → Bool
  | [] => false
  | [_] => false
  | [_, _] => false
  | a :: b :: c :: rest => (!a && !b && !c) || hasThreeConsecFalse (b :: c :: rest)

/-- Length of the leading run of failures. -/
def leadingFalses : List Bool → Nat
  | [] => 0
  | true :: _ => 0
  | false :: rest => leadingFalses rest + 1

/-- The list comprehension of `__main__`: run `craft` (from a fresh state)
`n` times, threading the stream position across trials; `none` when some
trial exceeds the fuel. -/
def runTrials (fuel : Nat) (dc modifier req : Int) :
    Nat → (Nat → Nat) → Nat → Option (List Bool × Nat)
  | 0, _, pos => some ([], pos)
  | n + 1, g, pos =>
    match craft fuel dc modifier req 0 0 g pos with
    | none => none
    | some (b, _, p) =>
      match runTrials fuel dc modifier req n g p with
      | none => none
      | some (bs, p2) => some (b :: bs, p2)

/-- `(1 - sum(repeated_craft)/len(repeated_craft)) * 100`, the failure
percentage the driver computes, in exact rational arithmetic. -/
def percentFailure (results : List Bool) : ℚ :=
  (1 - (results.count true : ℚ) / (results.length : ℚ)) * 100

/-- Python's `format(x, '.0f')` rounding: round to the nearest integer,
ties to the even integer. -/
def pyRound (q : ℚ) : Int :=
  if q - ⌊q⌋ < 1 / 2 then ⌊q⌋
  else if 1 / 2 < q - ⌊q⌋ then ⌊q⌋ + 1
  else if ⌊q⌋ % 2 = 0 then ⌊q⌋ else ⌊q⌋ + 1

/-- The observable behaviour of `__main__` as a function of the embedded
constants: run the trials, then print
`percent failure:{(1-sum/len)*100:.0f}`.  When the trial list is empty,
`len(repeated_craft) = 0` and the division raises `ZeroDivisionError`.
`none` only when the fuel runs out (a model artifact). -/
def driverOutput (fuel : Nat) (dc modifier req trials : Int) (g : Nat → Nat) :
    Option (Except PyErr String) :=
  match runTrials fuel dc modifier req trials.toNat g 0 with
  | none => none
  | some (results, _) =>
    if results.length = 0 then some (Except.error PyErr.zeroDivisionError)
    else
      some (Except.ok
        ("percent failure:" ++ toString (pyRound (percentFailure results))))

/-- The constants embedded in `__main__`. -/
def main_dc : Int := 18

/-- The modifier constant embedded in `__main__`. -/
def main_modifier : Int := 9

/-- The `successes_required` constant embedded in `__main__`. -/
def main_successes_required : Int := 8

/-- The `n_repeats` constant embedded in `__main__`. -/
def main_n_repeats : Int := 10000

/-- The program's single observable line, with its embedded constants. -/
def mainOutput (fuel : Nat) (g : Nat → Nat) : Option (Except PyErr String) :=
  driverOutput fuel main_dc main_modifier main_successes_required main_n_repeats g

/-- The all-zero raw-draw stream (every d20 outcome is 1), used to evaluate
the model at concrete inputs. -/
def gZero : Nat → Nat := fun _ => 0

lemma rollD20_le : ∀ (g : Nat → Nat) (i : Nat), rollD20 g i ≤ 20 := by
  intro g i
  have h : g i % 20 < 20 := Nat.mod_lt _ (by norm_num)
  unfold rollD20
  omega

lemma one_le_rollD20 : ∀ (g : Nat → Nat) (i : Nat), 1 ≤ rollD20 g i := by
  intro g i
  unfold rollD20
  omega

lemma roll_d20_eq (number : Nat) (g : Nat → Nat) (pos : Nat) :
    roll 20 number g pos =
      Except.ok ((List.range number).map fun i => ((rollD20 g (pos + i) : Nat) : Int)) := by
  unfold roll
  rw [if_neg (by norm_num)]
  congr 1


lemma craftLoop_cons_true (req nS nCF : Int) (rest : List Bool) :
    craftLoop req nS nCF (true :: rest) =
      if req ≤ nS + 1 then ⟨some true, nS + 1, 0, 1⟩
      else
        ⟨(craftLoop req (nS + 1) 0 rest).outcome, (craftLoop req (nS + 1) 0 rest).nS,
         (craftLoop req (nS + 1) 0 rest).nCF, (craftLoop req (nS + 1) 0 rest).consumed + 1⟩ := by
  simp [craftLoop]

lemma craftLoop_cons_false (req nS nCF : Int) (rest : List Bool) :
    craftLoop req nS nCF (false :: rest) =
      if 3 ≤ nCF + 1 then ⟨some false, nS, nCF + 1, 1⟩
      else
        ⟨(craftLoop req nS (nCF + 1) rest).outcome, (craftLoop req nS (nCF + 1) rest).nS,
         (craftLoop req nS (nCF + 1) rest).nCF, (craftLoop req nS (nCF + 1) rest).consumed + 1⟩ := by
  simp [craftLoop]

lemma craftLoop_append_of_some {req : Int} {l1 : List Bool} (l2 : List Bool) :
    ∀ {nS nCF : Int} {b : Bool}, (craftLoop req nS nCF l1).outcome = some b →
      craftLoop req nS nCF (l1 ++ l2) = craftLoop req nS nCF l1 := by
  induction l1 with
  | nil => intro nS nCF b h; simp [craftLoop] at h
  | cons r rest ih =>
    intro nS nCF b h
    cases r
    · by_cases hc : (3 : Int) ≤ nCF + 1
      · simp only [List.cons_append, craftLoop_cons_false, if_pos hc]
      · simp only [List.cons_append, craftLoop_cons_false, if_neg hc] at h ⊢
        rw [ih h]
    · by_cases hc : req ≤ nS + 1
      · simp only [List.cons_append, craftLoop_cons_true, if_pos hc]
      · simp only [List.cons_append, craftLoop_cons_true, if_neg hc] at h ⊢
        rw [ih h]

lemma craftLoop_append_of_none {req : Int} {l1 : List Bool} (l2 : List Bool) :
    ∀ {nS nCF : Int}, (craftLoop req nS nCF l1).outcome = none →
      craftLoop req nS nCF (l1 ++ l2) =
        ⟨(craftLoop req (craftLoop req nS nCF l1).nS (craftLoop req nS nCF l1).nCF l2).outcome,
         (craftLoop req (craftLoop req nS nCF l1).nS (craftLoop req nS nCF l1).nCF l2).nS,
         (craftLoop req (craftLoop req nS nCF l1).nS (craftLoop req nS nCF l1).nCF l2).nCF,
         l1.length +
           (craftLoop req (craftLoop req nS nCF l1).nS (craftLoop req nS nCF l1).nCF l2).consumed⟩ := by
  induction l1 with
  | nil => intro nS nCF _; simp [craftLoop]
  | cons r rest ih =>
    intro nS nCF h
    cases r
    · by_cases hc : (3 : Int) ≤ nCF + 1
      · simp [craftLoop_cons_false, if_pos hc] at h
      · simp only [List.cons_append, craftLoop_cons_false, if_neg hc] at h ⊢
        rw [ih h]
        simp only [LoopRes.mk.injEq, List.length_cons]
        exact ⟨trivial, trivial, trivial, by omega⟩
    · by_cases hc : req ≤ nS + 1
      · simp [craftLoop_cons_true, if_pos hc] at h
      · simp only [List.cons_append, craftLoop_cons_true, if_neg hc] at h ⊢
        rw [ih h]
        simp only [LoopRes.mk.injEq, List.length_cons]
        exact ⟨trivial, trivial, trivial, by omega⟩

lemma craftLoop_none_consumed {req : Int} {l : List Bool} :
    ∀ {nS nCF : Int}, (craftLoop req nS nCF l).outcome = none →
      (craftLoop req nS nCF l).consumed = l.length := by
  induction l with
  | nil => intro nS nCF _; simp [craftLoop]
  | cons r rest ih =>
    intro nS nCF h
    cases r
    · by_cases hc : (3 : Int) ≤ nCF + 1
      · simp [craftLoop_cons_false, if_pos hc] at h
      · simp only [craftLoop_cons_false, if_neg hc] at h ⊢
        rw [ih h]
        simp
    · by_cases hc : req ≤ nS + 1
      · simp [craftLoop_cons_true, if_pos hc] at h
      · simp only [craftLoop_cons_true, if_neg hc] at h ⊢
        rw [ih h]
        simp

lemma craftLoop_consumed_le {req : Int} {l : List Bool} :
    ∀ {nS nCF : Int}, (craftLoop req nS nCF l).consumed ≤ l.length := by
  induction l with
  | nil => intro nS nCF; simp [craftLoop]
  | cons r rest ih =>
    intro nS nCF
    cases r
    · by_cases hc : (3 : Int) ≤ nCF + 1
      · simp [craftLoop_cons_false, if_pos hc]
      · simp only [craftLoop_cons_false, if_neg hc, List.length_cons]
        exact Nat.succ_le_succ ih
    · by_cases hc : req ≤ nS + 1
      · simp [craftLoop_cons_true, if_pos hc]
      · simp only [craftLoop_cons_true, if_neg hc, List.length_cons]
        exact Nat.succ_le_succ ih

lemma craftLoop_take {req : Int} {l : List Bool} :
    ∀ {nS nCF : Int} {b : Bool}, (craftLoop req nS nCF l).outcome = some b →
      craftLoop req nS nCF (l.take (craftLoop req nS nCF l).consumed) =
        craftLoop req nS nCF l := by
  induction l with
  | nil => intro nS nCF b h; simp [craftLoop] at h
  | cons r rest ih =>
    intro nS nCF b h
    cases r
    · by_cases hc : (3 : Int) ≤ nCF + 1
      · simp [craftLoop_cons_false, if_pos hc, List.take_succ_cons]
      · simp only [craftLoop_cons_false, if_neg hc] at h ⊢
        simp only [List.take_succ_cons, craftLoop_cons_false, if_neg hc, ih h]
    · by_cases hc : req ≤ nS + 1
      · simp [craftLoop_cons_true, if_pos hc, List.take_succ_cons]
      · simp only [craftLoop_cons_true, if_neg hc] at h ⊢
        simp only [List.take_succ_cons, craftLoop_cons_true, if_neg hc, ih h]

lemma craftLoop_nS_nonneg {req : Int} {l : List Bool} :
    ∀ {nS nCF : Int}, 0 ≤ nS → 0 ≤ (craftLoop req nS nCF l).nS := by
  induction l with
  | nil => intro nS nCF h; simpa [craftLoop] using h
  | cons r rest ih =>
    intro nS nCF h
    cases r
    · by_cases hc : (3 : Int) ≤ nCF + 1
      · simpa [craftLoop_cons_false, if_pos hc] using h
      · simp only [craftLoop_cons_false, if_neg hc]
        exact ih h
    · by_cases hc : req ≤ nS + 1
      · simp [craftLoop_cons_true, if_pos hc]; omega
      · simp only [craftLoop_cons_true, if_neg hc]
        exact ih (by omega)

lemma craftLoop_nCF_nonneg {req : Int} {l : List Bool} :
    ∀ {nS nCF : Int}, 0 ≤ nCF → 0 ≤ (craftLoop req nS nCF l).nCF := by
  induction l with
  | nil => intro nS nCF h; simpa [craftLoop] using h
  | cons r rest ih =>
    intro nS nCF h
    cases r
    · by_cases hc : (3 : Int) ≤ nCF + 1
      · simp [craftLoop_cons_false, if_pos hc]; omega
      · simp only [craftLoop_cons_false, if_neg hc]
        exact ih (by omega)
    · by_cases hc : req ≤ nS + 1
      · simp [craftLoop_cons_true, if_pos hc]
      · simp only [craftLoop_cons_true, if_neg hc]
        exact ih (by omega)

lemma craftLoop_none_inv {req : Int} {l : List Bool} :
    ∀ {nS nCF : Int}, 0 ≤ nCF → nCF ≤ 2 →
      (craftLoop req nS nCF l).outcome = none →
      (craftLoop req nS nCF l).nS = nS + (l.count true : Int) ∧
        0 ≤ (craftLoop req nS nCF l).nCF ∧ (craftLoop req nS nCF l).nCF ≤ 2 := by
  induction l with
  | nil => intro nS nCF h0 h2 _; simp [craftLoop]; omega
  | cons r rest ih =>
    intro nS nCF h0 h2 h
    cases r
    · by_cases hc : (3 : Int) ≤ nCF + 1
      · simp [craftLoop_cons_false, if_pos hc] at h
      · simp only [craftLoop_cons_false, if_neg hc] at h ⊢
        have := ih (by omega) (by omega) h
        simpa [List.count_cons] using this
    · by_cases hc : req ≤ nS + 1
      · simp [craftLoop_cons_true, if_pos hc] at h
      · simp only [craftLoop_cons_true, if_neg hc] at h ⊢
        have := ih (by omega) (by omega) h
        refine ⟨?_, this.2⟩
        rw [this.1]
        have hcnt : (true :: rest).count true = rest.count true + 1 := by
          simp [List.count_cons]
        rw [hcnt]
        push_cast
        ring

lemma craftLoop_false_nCF {req : Int} {l : List Bool} :
    ∀ {nS nCF : Int}, 0 ≤ nCF → nCF ≤ 2 →
      (craftLoop req nS nCF l).outcome = some false →
      (craftLoop req nS nCF l).nCF = 3 := by
  induction l with
  | nil => intro nS nCF _ _ h; simp [craftLoop] at h
  | cons r rest ih =>
    intro nS nCF h0 h2 h
    cases r
    · by_cases hc : (3 : Int) ≤ nCF + 1
      · simp [craftLoop_cons_false, if_pos hc]
        omega
      · simp only [craftLoop_cons_false, if_neg hc] at h ⊢
        exact ih (by omega) (by omega) h
    · by_cases hc : req ≤ nS + 1
      · simp [craftLoop_cons_true, if_pos hc] at h
      · simp only [craftLoop_cons_true, if_neg hc] at h ⊢
        exact ih (by omega) (by omega) h

lemma craftLoop_true_nS {req : Int} {l : List Bool} :
    ∀ {nS nCF : Int}, (craftLoop req nS nCF l).outcome = some true →
      req ≤ (craftLoop req nS nCF l).nS := by
  induction l with
  | nil => intro nS nCF h; simp [craftLoop] at h
  | cons r rest ih =>
    intro nS nCF h
    cases r
    · by_cases hc : (3 : Int) ≤ nCF + 1
      · simp [craftLoop_cons_false, if_pos hc] at h
      · simp only [craftLoop_cons_false, if_neg hc] at h ⊢
        exact ih h
    · by_cases hc : req ≤ nS + 1
      · simp only [craftLoop_cons_true, if_pos hc]
        exact hc
      · simp only [craftLoop_cons_true, if_neg hc] at h ⊢
        exact ih h

lemma make_checks_length (dc modifier : Int) (number : Nat) (g : Nat → Nat)
    (pos : Nat) : (make_checks dc modifier number g pos).length = number := by
  simp [make_checks]

lemma make_checks_all_false {dc modifier : Int} (h : modifier + 20 < dc)
    (number : Nat) (g : Nat → Nat) (pos : Nat) :
    ∀ x ∈ make_checks dc modifier number g pos, x = false := by
  intro x hx
  simp only [make_checks, List.mem_map] at hx
  obtain ⟨i, _, rfl⟩ := hx
  simp only [checkAt, decide_eq_false_iff_not, not_le]
  have hle : rollD20 g (pos + i) ≤ 20 := rollD20_le g (pos + i)
  omega

lemma make_checks_all_true {dc modifier : Int} (h : dc ≤ modifier + 1)
    (number : Nat) (g : Nat → Nat) (pos : Nat) :
    ∀ x ∈ make_checks dc modifier number g pos, x = true := by
  intro x hx
  simp only [make_checks, List.mem_map] at hx
  obtain ⟨i, _, rfl⟩ := hx
  simp only [checkAt, decide_eq_true_eq]
  have hge : 1 ≤ rollD20 g (pos + i) := one_le_rollD20 g (pos + i)
  omega

lemma craftLoop_allFalse {req nS : Int} {l : List Bool}
    (h_all : ∀ x ∈ l, x = false) (hlen : 3 ≤ l.length) :
    craftLoop req nS 0 l = ⟨some false, nS, 3, 3⟩ := by
  cases l with
  | nil => exact absurd hlen (by simp)
  | cons a t1 =>
    cases t1 with
    | nil => exact absurd hlen (by simp)
    | cons b t2 =>
      cases t2 with
      | nil => exact absurd hlen (by simp)
      | cons c rest =>
        have ha := h_all a (by simp)
        have hb := h_all b (by simp)
        have hc := h_all c (by simp)
        subst ha hb hc
        norm_num [craftLoop_cons_false]

lemma craft_succ_resolved {dc modifier req nS nCF : Int} {g : Nat → Nat} {pos : Nat}
    {b : Bool} {a c : Int} {k : Nat}
    (h : craftLoop req nS nCF (make_checks dc modifier 100 g pos) = ⟨some b, a, c, k⟩)
    (fuel : Nat) :
    craft (fuel + 1) dc modifier req nS nCF g pos = some (b, k, pos + 100) := by
  simp [craft, h]

lemma craft_succ_cont {dc modifier req nS nCF : Int} {g : Nat → Nat} {pos : Nat}
    {a c : Int} {k : Nat}
    (h : craftLoop req nS nCF (make_checks dc modifier 100 g pos) = ⟨none, a, c, k⟩)
    (fuel : Nat) :
    craft (fuel + 1) dc modifier req nS nCF g pos =
      match craft fuel dc modifier req a c g (pos + 100) with
      | none => none
      | some (b, k2, p) => some (b, 100 + k2, p) := by
  simp [craft, h]

/-- C2: whenever `threshold > modifier + 20`, no d20 roll can pass the
check, so `craft` (from the fresh state) returns `False` having processed
exactly 3 check results, for every `successes_required`, every roll stream
and every recursion budget. -/
theorem craft_impossible_dc_fails_after_three (dc modifier req : Int)
    (g : Nat → Nat) (pos fuel : Nat) (h : modifier + 20 < dc) :
    craft (fuel + 1) dc modifier req 0 0 g pos = some (false, 3, pos + 100) := by
  have hloop := @craftLoop_allFalse req 0 (make_checks dc modifier 100 g pos)
      (make_checks_all_false h 100 g pos)
      (by rw [make_checks_length]; norm_num)
  exact craft_succ_resolved hloop fuel

/-- Witness for C2 at `threshold = 21`, `modifier = 0`,
`required_successes = 5` on the all-ones roll stream. -/
theorem craft_impossible_dc_fails_after_three_witness :
    (0 : Int) + 20 < 21 ∧ craft 1 21 0 5 0 0 gZero 0 = some (false, 3, 100) :=
  ⟨by norm_num, craft_impossible_dc_fails_after_three 21 0 5 gZero 0 0 (by norm_num)⟩

lemma craftLoop_allTrue_resolve {req : Int} {l : List Bool} :
    ∀ {nS nCF : Int}, (∀ x ∈ l, x = true) → nS < req → req ≤ nS + (l.length : Int) →
      craftLoop req nS nCF l = ⟨some true, req, 0, (req - nS).toNat⟩ := by
  induction l with
  | nil =>
    intro nS nCF _ h1 h2
    exfalso
    simp at h2
    omega
  | cons r rest ih =>
    intro nS nCF hall h1 h2
    have hr := hall r (by simp)
    subst hr
    by_cases hc : req ≤ nS + 1
    · simp only [craftLoop_cons_true, if_pos hc]
      simp [LoopRes.mk.injEq] <;> omega
    · simp only [craftLoop_cons_true, if_neg hc]
      have hrest : ∀ x ∈ rest, x = true := fun x hx => hall x (by simp [hx])
      have h2' : req ≤ (nS + 1) + (rest.length : Int) := by
        simp only [List.length_cons] at h2
        push_cast at h2 ⊢
        omega
      rw [ih hrest (by omega) h2']
      simp [LoopRes.mk.injEq] <;> omega

lemma craftLoop_allTrue_cont {req : Int} {l : List Bool} :
    ∀ {nS nCF : Int}, (∀ x ∈ l, x = true) → 0 < l.length →
      nS + (l.length : Int) < req →
      craftLoop req nS nCF l = ⟨none, nS + (l.length : Int), 0, l.length⟩ := by
  induction l with
  | nil => intro nS nCF _ h0 _; simp at h0
  | cons r rest ih =>
    intro nS nCF hall h0 h2
    have hr := hall r (by simp)
    subst hr
    have hc : ¬req ≤ nS + 1 := by
      simp only [List.length_cons] at h2
      push_cast at h2
      omega
    simp only [craftLoop_cons_true, if_neg hc]
    cases rest with
    | nil => simp [craftLoop]
    | cons b rest2 =>
      have h2' : (nS + 1) + ((b :: rest2).length : Int) < req := by
        simp only [List.length_cons] at h2 ⊢
        push_cast at h2 ⊢
        omega
      rw [ih (fun x hx => hall x (by simp [hx])) (by simp) h2']
      simp [LoopRes.mk.injEq, List.length_cons] <;> push_cast <;> omega

lemma craft_allTrue {dc modifier req : Int} (h : dc ≤ modifier + 1) (g : Nat → Nat) :
    ∀ (k : Nat) (nS nCF : Int) (pos : Nat), 0 ≤ nS → nS < req → (req - nS).toNat = k →
      ∃ fuel p, craft fuel dc modifier req nS nCF g pos = some (true, (req - nS).toNat, p) := by
  intro k
  induction k using Nat.strong_induction_on with
  | _ k ihk =>
    intro nS nCF pos h0 h1 hk
    by_cases hle : req ≤ nS + 100
    · refine ⟨1, pos + 100, ?_⟩
      have hloop := @craftLoop_allTrue_resolve req
          (make_checks dc modifier 100 g pos) nS nCF
          (make_checks_all_true h 100 g pos) h1
          (by rw [make_checks_length]; push_cast; omega)
      exact craft_succ_resolved hloop 0
    · have hcont := @craftLoop_allTrue_cont req
          (make_checks dc modifier 100 g pos) nS nCF
          (make_checks_all_true h 100 g pos)
          (by rw [make_checks_length]; norm_num)
          (by rw [make_checks_length]; push_cast; omega)
      rw [make_checks_length] at hcont
      push_cast at hcont
      obtain ⟨fuel, p, hcraft⟩ :=
        ihk (k - 100) (by omega) (nS + 100) 0 (pos + 100) (by omega) (by omega) (by omega)
      refine ⟨fuel + 1, p, ?_⟩
      rw [craft_succ_cont hcont fuel, hcraft]
      have harith : 100 + (req - (nS + 100)).toNat = (req - nS).toNat := by omega
      simp [harith]

/-- C3: whenever `threshold ≤ modifier + 1`, every check succeeds even on a
roll of 1, so `craft` returns `True` for every positive
`successes_required`, having processed exactly `required_successes` check
results; in particular with `threshold = 11`, `modifier = 11`,
`required_successes = 5` it returns `True` after exactly 5 checks. -/
theorem craft_guaranteed_success_returns_true (dc modifier req : Int)
    (g : Nat → Nat) (pos : Nat) (h : dc ≤ modifier + 1) (hreq : 1 ≤ req) :
    (∃ fuel p, craft fuel dc modifier req 0 0 g pos = some (true, req.toNat, p)) ∧
      craft 1 11 11 5 0 0 g pos = some (true, 5, pos + 100) := by
  constructor
  · obtain ⟨fuel, p, hc⟩ :=
      craft_allTrue h g (req - 0).toNat 0 0 pos le_rfl (by omega) rfl
    refine ⟨fuel, p, ?_⟩
    rw [hc]
    norm_num
  · have hloop := @craftLoop_allTrue_resolve 5 (make_checks 11 11 100 g pos) 0 0
        (make_checks_all_true (by norm_num : (11:Int) ≤ 11 + 1) 100 g pos)
        (by norm_num)
        (by rw [make_checks_length]; norm_num)
    exact craft_succ_resolved hloop 0

/-- Witness for C3 at `threshold = 11`, `modifier = 11`,
`required_successes = 5` on the all-ones roll stream. -/
theorem craft_guaranteed_success_returns_true_witness :
    (11 : Int) ≤ 11 + 1 ∧ (1 : Int) ≤ 5 ∧
      craft 1 11 11 5 0 0 gZero 0 = some (true, 5, 100) :=
  ⟨by norm_num, by norm_num,
    (craft_guaranteed_success_returns_true 11 11 5 gZero 0 (by norm_num)
      (by norm_num)).2⟩

/-- C1 counterexample: at `threshold = 21`, `modifier = 0`,
`required_successes = 0` on the all-ones roll stream, `craft` does not
return an immediate `True` with zero checks consumed: it returns `False`
having processed 3 check results (the `successes_required` test only runs
after a successful check, and here every check fails). -/
theorem craft_zero_required_not_immediate_cex :
    craft 1 21 0 0 0 0 gZero 0 = some (false, 3, 100) ∧
      craft 1 21 0 0 0 0 gZero 0 ≠ some (true, 0, 0) := by
  have h : craft 1 21 0 0 0 0 gZero 0 = some (false, 3, 100) :=
    craft_succ_resolved
      (craftLoop_allFalse (make_checks_all_false (by norm_num) 100 gZero 0)
        (by rw [make_checks_length]; norm_num)) 0
  refine ⟨h, fun hp => ?_⟩
  rw [h] at hp
  simp at hp

lemma craftLoop_nonpos_req {req : Int} (hreq : req ≤ 0) {l : List Bool} :
    ∀ {nS nCF : Int}, 0 ≤ nS → craftLoop req nS nCF l = craftLoop 1 nS nCF l := by
  induction l with
  | nil => intro nS nCF _; simp [craftLoop]
  | cons r rest ih =>
    intro nS nCF h0
    cases r
    · by_cases hc : (3 : Int) ≤ nCF + 1
      · simp only [craftLoop_cons_false, if_pos hc]
      · simp only [craftLoop_cons_false, if_neg hc, ih h0]
    · have hc1 : req ≤ nS + 1 := by omega
      have hc2 : (1 : Int) ≤ nS + 1 := by omega
      simp only [craftLoop_cons_true, if_pos hc1, if_pos hc2]

lemma craft_nonpos_req_aux {dc modifier req : Int} (hreq : req ≤ 0) (g : Nat → Nat) :
    ∀ (fuel : Nat) (nS nCF : Int) (pos : Nat), 0 ≤ nS →
      craft fuel dc modifier req nS nCF g pos =
        craft fuel dc modifier 1 nS nCF g pos := by
  intro fuel
  induction fuel with
  | zero => intro nS nCF pos _; rfl
  | succ fuel ih =>
    intro nS nCF pos h0
    have heq := @craftLoop_nonpos_req req hreq
        (make_checks dc modifier 100 g pos) nS nCF h0
    simp only [craft]
    rw [heq]
    cases hout : (craftLoop 1 nS nCF (make_checks dc modifier 100 g pos)).outcome with
    | some b => rfl
    | none =>
      rw [ih _ _ (pos + 100) (craftLoop_nS_nonneg h0)]

/-- C1 amended: `craft` with `required_successes ≤ 0` does not return
immediately; it behaves exactly as `required_successes = 1` (returning
`True` at the first successful check, after at least one processed check,
and `False` if three consecutive failures come first). -/
theorem craft_nonpos_required_acts_as_one (fuel : Nat) (dc modifier req : Int)
    (g : Nat → Nat) (pos : Nat) (hreq : req ≤ 0) :
    craft fuel dc modifier req 0 0 g pos = craft fuel dc modifier 1 0 0 g pos :=
  craft_nonpos_req_aux hreq g fuel 0 0 pos le_rfl

/-- Witness for the amended C1 at `required_successes = -3`. -/
theorem craft_nonpos_required_acts_as_one_witness :
    (-3 : Int) ≤ 0 ∧ craft 1 11 11 (-3) 0 0 gZero 0 = craft 1 11 11 1 0 0 gZero 0 :=
  ⟨by norm_num, craft_nonpos_required_acts_as_one 1 11 11 (-3) gZero 0 (by norm_num)⟩

lemma hasThreeConsecFalse_tail {x : Bool} {l : List Bool}
    (h : hasThreeConsecFalse (x :: l) = false) : hasThreeConsecFalse l = false := by
  cases l with
  | nil => rfl
  | cons b t =>
    cases t with
    | nil => rfl
    | cons c t2 =>
      simp only [hasThreeConsecFalse, Bool.or_eq_false_iff] at h
      exact h.2

lemma leadingFalses_le_two {l : List Bool} (h : hasThreeConsecFalse l = false) :
    leadingFalses l ≤ 2 := by
  cases l with
  | nil => simp [leadingFalses]
  | cons a t1 =>
    cases t1 with
    | nil => cases a <;> simp [leadingFalses]
    | cons b t2 =>
      cases t2 with
      | nil => cases a <;> cases b <;> simp [leadingFalses]
      | cons c t3 =>
        cases a
        · cases b
          · cases c
            · simp [hasThreeConsecFalse] at h
            · simp [leadingFalses]
          · simp [leadingFalses]
        · simp [leadingFalses]

lemma craftLoop_no_three_false {req : Int} {l : List Bool} :
    ∀ {nS nCF : Int}, 0 ≤ nCF → hasThreeConsecFalse l = false →
      (leadingFalses l : Int) + nCF < 3 →
      (craftLoop req nS nCF l).outcome ≠ some false := by
  induction l with
  | nil => intro nS nCF _ _ _; simp [craftLoop]
  | cons r rest ih =>
    intro nS nCF h0 hthree hlead
    have htail := hasThreeConsecFalse_tail hthree
    cases r
    · have hlead1 : leadingFalses (false :: rest) = leadingFalses rest + 1 := by
        simp [leadingFalses]
      rw [hlead1] at hlead
      push_cast at hlead
      have hc : ¬(3 : Int) ≤ nCF + 1 := by omega
      simp only [craftLoop_cons_false, if_neg hc]
      exact ih (by omega) htail (by omega)
    · by_cases hc : req ≤ nS + 1
      · simp only [craftLoop_cons_true, if_pos hc]
        simp
      · simp only [craftLoop_cons_true, if_neg hc]
        have hlead2 : (leadingFalses rest : Int) ≤ 2 := by
          exact_mod_cast leadingFalses_le_two htail
        exact ih (by omega) htail (by omega)

lemma craftLoop_take_resolves {req nS nCF : Int} {l : List Bool} {n : Nat} {b : Bool}
    (h : (craftLoop req nS nCF (l.take n)).outcome = some b) :
    (craftLoop req nS nCF l).outcome = some b := by
  have happ := @craftLoop_append_of_some req (l.take n) (l.drop n) nS nCF b h
  rw [List.take_append_drop] at happ
  rw [happ]
  exact h

lemma count_true_take_mono {l : List Bool} {m n : Nat} (h : m ≤ n) :
    (l.take m).count true ≤ (l.take n).count true := by
  have heq : l.take m = (l.take n).take m := by
    rw [List.take_take, Nat.min_eq_left h]
  rw [heq]
  exact (List.take_sublist _ _).count_le _

/-- C4: invariants of the attempt state machine started from
`(successes, consec_fails) = (0, 0)`, for every check sequence `l` and
every `required_successes`: (1) at every non-terminal step (i.e. after any
unresolved prefix) `n_successes` equals the number of successes seen so
far and `n_consec_fails` lies in `[0, 2]`; (2) `n_successes` is
monotonically non-decreasing across non-terminal steps; (3) failure is
declared exactly upon the counter reaching 3; (4) success is declared only
once `n_successes` reaches `required_successes`; (5) a resolution on a
prefix is the resolution of the whole sequence; (6) a sequence with no run
of three consecutive failures never yields `Failed`. -/
theorem craftLoop_state_invariants (req : Int) (l : List Bool) :
    (∀ n, (craftLoop req 0 0 (l.take n)).outcome = none →
        (craftLoop req 0 0 (l.take n)).nS = ((l.take n).count true : Int) ∧
        0 ≤ (craftLoop req 0 0 (l.take n)).nCF ∧
        (craftLoop req 0 0 (l.take n)).nCF ≤ 2) ∧
    (∀ m n, m ≤ n → (craftLoop req 0 0 (l.take m)).outcome = none →
        (craftLoop req 0 0 (l.take n)).outcome = none →
        (craftLoop req 0 0 (l.take m)).nS ≤ (craftLoop req 0 0 (l.take n)).nS) ∧
    ((craftLoop req 0 0 l).outcome = some false → (craftLoop req 0 0 l).nCF = 3) ∧
    ((craftLoop req 0 0 l).outcome = some true → req ≤ (craftLoop req 0 0 l).nS) ∧
    (∀ n b, (craftLoop req 0 0 (l.take n)).outcome = some b →
        (craftLoop req 0 0 l).outcome = some b) ∧
    (hasThreeConsecFalse l = false → (craftLoop req 0 0 l).outcome ≠ some false) := by
  refine ⟨?_, ?_, ?_, ?_, ?_, ?_⟩
  · intro n hn
    have h := craftLoop_none_inv (by norm_num) (by norm_num) hn
    simpa using h
  · intro m n hmn hm hn
    have h1 := (craftLoop_none_inv (by norm_num) (by norm_num) hm).1
    have h2 := (craftLoop_none_inv (by norm_num) (by norm_num) hn).1
    rw [h1, h2]
    have hcnt := @count_true_take_mono l m n hmn
    simp only [zero_add]
    exact_mod_cast hcnt
  · exact craftLoop_false_nCF (by norm_num) (by norm_num)
  · exact craftLoop_true_nS
  · intro n b h
    exact craftLoop_take_resolves h
  · intro hthree
    refine craftLoop_no_three_false (by norm_num) hthree ?_
    have hl2 := leadingFalses_le_two hthree
    push_cast
    omega

/-- Witness for C4: a sequence with four failures but no run of three
consecutive failures does not fail the attempt. -/
theorem craftLoop_state_invariants_witness :
    hasThreeConsecFalse [false, false, true, false, false] = false ∧
      (craftLoop 2 0 0 [false, false, true, false, false]).outcome ≠ some false :=
  ⟨by decide,
    (craftLoop_state_invariants 2 [false, false, true, false, false]).2.2.2.2.2
      (by decide)⟩

lemma LoopRes_eta_some {r : LoopRes} {b : Bool} (h : r.outcome = some b) :
    r = ⟨some b, r.nS, r.nCF, r.consumed⟩ := by
  rw [← h]

lemma LoopRes_eta_none {r : LoopRes} (h : r.outcome = none) :
    r = ⟨none, r.nS, r.nCF, r.consumed⟩ := by
  rw [← h]

lemma craftLoop_outcome_eq_foldChecks {req : Int} {l : List Bool} :
    ∀ {nS nCF : Int}, (craftLoop req nS nCF l).outcome = (foldChecks req (nS, nCF) l).1 := by
  induction l with
  | nil => intro nS nCF; simp [craftLoop, foldChecks]
  | cons r rest ih =>
    intro nS nCF
    cases r
    · by_cases hc : (3 : Int) ≤ nCF + 1
      · simp [craftLoop_cons_false, if_pos hc, foldChecks, stepCheck]
      · simp [craftLoop_cons_false, if_neg hc, foldChecks, stepCheck, ih]
    · by_cases hc : req ≤ nS + 1
      · simp [craftLoop_cons_true, if_pos hc, foldChecks, stepCheck]
      · simp [craftLoop_cons_true, if_neg hc, foldChecks, stepCheck, ih]

lemma chunkFold_eq_craftLoop_flatten {req : Int} :
    ∀ (chunks : List (List Bool)) (s : Int × Int),
      (chunkFold req s chunks).1 = (craftLoop req s.1 s.2 chunks.flatten).outcome := by
  intro chunks
  induction chunks with
  | nil => intro s; simp [chunkFold, craftLoop]
  | cons chunk rest ih =>
    intro s
    cases hout : (craftLoop req s.1 s.2 chunk).outcome with
    | some b =>
      have happ := craftLoop_append_of_some rest.flatten hout
      simp only [chunkFold, hout, List.flatten_cons, happ]
    | none =>
      have happ := craftLoop_append_of_none rest.flatten hout
      simp only [chunkFold, hout, List.flatten_cons, happ]
      exact ih _

lemma make_checks_add (dc modifier : Int) (a b : Nat) (g : Nat → Nat) (pos : Nat) :
    make_checks dc modifier (a + b) g pos =
      make_checks dc modifier a g pos ++ make_checks dc modifier b g (pos + a) := by
  simp only [make_checks, List.range_add, List.map_append, List.map_map]
  congr 1
  refine List.map_congr_left fun i _ => ?_
  simp only [Function.comp_apply]
  have harith : pos + (a + i) = pos + a + i := by omega
  rw [harith]

lemma make_checks_take (dc modifier : Int) {n N : Nat} (h : n ≤ N) (g : Nat → Nat)
    (pos : Nat) :
    (make_checks dc modifier N g pos).take n = make_checks dc modifier n g pos := by
  simp only [make_checks, ← List.map_take, List.take_range, Nat.min_eq_left h]

lemma craft_resolves_loop {dc modifier : Int} {g : Nat → Nat} :
    ∀ (fuel : Nat) {req nS nCF : Int} {pos : Nat} {b : Bool} {n p : Nat},
      craft fuel dc modifier req nS nCF g pos = some (b, n, p) →
      (craftLoop req nS nCF (make_checks dc modifier n g pos)).outcome = some b := by
  intro fuel
  induction fuel with
  | zero => intro req nS nCF pos b n p h; simp [craft] at h
  | succ fuel ih =>
    intro req nS nCF pos b n p h
    cases hout : (craftLoop req nS nCF (make_checks dc modifier 100 g pos)).outcome with
    | some b2 =>
      rw [craft_succ_resolved (LoopRes_eta_some hout) fuel] at h
      simp only [Option.some.injEq, Prod.mk.injEq] at h
      obtain ⟨hb, hn, hp⟩ := h
      subst hb
      subst hn
      have hcle : (craftLoop req nS nCF (make_checks dc modifier 100 g pos)).consumed ≤ 100 := by
        have hle := @craftLoop_consumed_le req
            (make_checks dc modifier 100 g pos) nS nCF
        rwa [make_checks_length] at hle
      have htake := craftLoop_take hout
      rw [make_checks_take dc modifier hcle] at htake
      rw [htake]
      exact hout
    | none =>
      rw [craft_succ_cont (LoopRes_eta_none hout) fuel] at h
      cases hrec : craft fuel dc modifier req
          (craftLoop req nS nCF (make_checks dc modifier 100 g pos)).nS
          (craftLoop req nS nCF (make_checks dc modifier 100 g pos)).nCF g (pos + 100) with
      | none => rw [hrec] at h; simp at h
      | some t =>
        obtain ⟨b2, k2, p2⟩ := t
        rw [hrec] at h
        simp only [Option.some.injEq, Prod.mk.injEq] at h
        obtain ⟨hb, hn, hp⟩ := h
        subst hb
        subst hn
        have hih := ih hrec
        rw [make_checks_add]
        have happ := craftLoop_append_of_none
            (make_checks dc modifier k2 g (pos + 100)) hout
        rw [happ]
        exact hih

/-- C6: batching is a pure refinement of the one-check-at-a-time state
machine: (i) processing any chunk decomposition of a check sequence with
the source's per-chunk loop, carrying the state across chunks, yields the
same outcome as the unbatched fold of the transition rule over the
flattened sequence (so any positive batch size gives the same result);
(ii) whenever `craft` (chunks of 100 with recursion on exhaustion) returns
`b` having processed `n` checks, the unbatched fold over those same `n`
checks in the same order returns `b`, as does the fold over any longer
prefix of the same stream. -/
theorem craft_batching_refines_fold :
    (∀ (chunks : List (List Bool)) (req : Int) (s : Int × Int),
        (chunkFold req s chunks).1 = (foldChecks req s chunks.flatten).1) ∧
    (∀ (fuel : Nat) (dc modifier req : Int) (g : Nat → Nat) (pos : Nat)
        (b : Bool) (n p : Nat),
        craft fuel dc modifier req 0 0 g pos = some (b, n, p) →
        (foldChecks req (0, 0) (make_checks dc modifier n g pos)).1 = some b ∧
          ∀ m, n ≤ m →
            (foldChecks req (0, 0) (make_checks dc modifier m g pos)).1 = some b) := by
  constructor
  · intro chunks req s
    rw [chunkFold_eq_craftLoop_flatten, craftLoop_outcome_eq_foldChecks]
  · intro fuel dc modifier req g pos b n p h
    have hloop := craft_resolves_loop fuel h
    constructor
    · rw [← craftLoop_outcome_eq_foldChecks]
      exact hloop
    · intro m hm
      rw [← craftLoop_outcome_eq_foldChecks]
      rw [show m = n + (m - n) from by omega, make_checks_add]
      rw [craftLoop_append_of_some _ hloop]
      exact hloop

/-- Witness for C6: the concrete run that fails after 3 checks agrees with
the unbatched fold over those 3 checks. -/
theorem craft_batching_refines_fold_witness :
    (foldChecks 1 (0, 0) (make_checks 21 0 3 gZero 0)).1 = some false := by
  have h : craft 1 21 0 1 0 0 gZero 0 = some (false, 3, 100) :=
    craft_succ_resolved
      (craftLoop_allFalse (make_checks_all_false (by norm_num) 100 gZero 0)
        (by rw [make_checks_length]; norm_num)) 0
  exact (craft_batching_refines_fold.2 1 21 0 1 gZero 0 false 3 100 h).1

lemma count_mono_range_map (c : Nat → Bool) {a b : Nat} (h : a ≤ b) :
    ((List.range a).map c).count true ≤ ((List.range b).map c).count true := by
  have heq : (List.range a).map c = ((List.range b).map c).take a := by
    rw [← List.map_take, List.take_range, Nat.min_eq_left h]
  rw [heq]
  exact (List.take_sublist _ _).count_le _

lemma count_unbounded (c : Nat → Bool) (hinf : ∀ N, ∃ i, N ≤ i ∧ c i = true) :
    ∀ m, ∃ n, m ≤ ((List.range n).map c).count true := by
  intro m
  induction m with
  | zero => exact ⟨0, Nat.zero_le _⟩
  | succ m ihm =>
    obtain ⟨n, hn⟩ := ihm
    obtain ⟨i, hni, hci⟩ := hinf n
    refine ⟨i + 1, ?_⟩
    have h1 : ((List.range (i + 1)).map c).count true =
        ((List.range i).map c).count true + 1 := by
      rw [List.range_succ, List.map_append, List.count_append]
      simp [hci]
    have h2 : m ≤ ((List.range i).map c).count true :=
      le_trans hn (count_mono_range_map c hni)
    omega

lemma craftLoop_count_resolves {req : Int} {l : List Bool} :
    ∀ {nS nCF : Int}, req - nS ≤ (l.count true : Int) → 1 ≤ l.count true →
      (craftLoop req nS nCF l).outcome ≠ none := by
  induction l with
  | nil => intro nS nCF _ h2; simp at h2
  | cons r rest ih =>
    intro nS nCF h1 h2
    cases r
    · have hcnt : (false :: rest).count true = rest.count true := by
        simp [List.count_cons]
      rw [hcnt] at h1 h2
      by_cases hc : (3 : Int) ≤ nCF + 1
      · simp [craftLoop_cons_false, if_pos hc]
      · simp only [craftLoop_cons_false, if_neg hc]
        exact ih h1 h2
    · by_cases hc : req ≤ nS + 1
      · simp [craftLoop_cons_true, if_pos hc]
      · simp only [craftLoop_cons_true, if_neg hc]
        have hcnt : (true :: rest).count true = rest.count true + 1 := by
          simp [List.count_cons]
        rw [hcnt] at h1
        push_cast at h1
        exact ih (by omega) (by omega)

lemma craftLoop_three_false_tail {req : Int} {nS nCF : Int} (h0 : 0 ≤ nCF) :
    (craftLoop req nS nCF [false, false, false]).outcome = some false := by
  by_cases h1 : (3 : Int) ≤ nCF + 1
  · simp [craftLoop_cons_false, if_pos h1]
  · simp only [craftLoop_cons_false, if_neg h1]
    by_cases h2 : (3 : Int) ≤ nCF + 1 + 1
    · simp [craftLoop_cons_false, if_pos h2]
    · simp only [craftLoop_cons_false, if_neg h2]
      have h3 : (3 : Int) ≤ nCF + 1 + 1 + 1 := by omega
      simp [craftLoop_cons_false, if_pos h3]

lemma craftLoop_stream_terminates (c : Nat → Bool) (req : Int) (nS nCF : Int)
    (h0 : 0 ≤ nCF) :
    ∃ n, (craftLoop req nS nCF ((List.range n).map c)).outcome ≠ none := by
  by_cases hinf : ∀ N, ∃ i, N ≤ i ∧ c i = true
  · obtain ⟨n, hn⟩ := count_unbounded c hinf (max (req - nS).toNat 1)
    have hA : (req - nS).toNat ≤ ((List.range n).map c).count true :=
      le_trans (Nat.le_max_left _ _) hn
    have hB : 1 ≤ ((List.range n).map c).count true :=
      le_trans (Nat.le_max_right _ _) hn
    exact ⟨n, craftLoop_count_resolves (by omega) hB⟩
  · push_neg at hinf
    obtain ⟨N, hN⟩ := hinf
    have hcN : ∀ i, N ≤ i → c i = false := by
      intro i hi
      have := hN i hi
      simpa using this
    refine ⟨N + 3, ?_⟩
    have hsplit : (List.range (N + 3)).map c =
        (List.range N).map c ++ [c N, c (N + 1), c (N + 2)] := by
      rw [List.range_add]
      have h3 : List.range 3 = [0, 1, 2] := rfl
      rw [h3, List.map_append, List.map_map]
      simp
    rw [hsplit, hcN N le_rfl, hcN (N + 1) (by omega), hcN (N + 2) (by omega)]
    cases hres : (craftLoop req nS nCF ((List.range N).map c)).outcome with
    | some b =>
      rw [craftLoop_append_of_some _ hres, hres]
      simp
    | none =>
      rw [craftLoop_append_of_none _ hres]
      have hcf0 : 0 ≤ (craftLoop req nS nCF ((List.range N).map c)).nCF :=
        craftLoop_nCF_nonneg h0
      simp only [craftLoop_three_false_tail hcf0]
      simp

lemma craft_of_loop_resolves {dc modifier : Int} {g : Nat → Nat} :
    ∀ (fuel : Nat) {req nS nCF : Int} {pos : Nat} {b : Bool},
      (craftLoop req nS nCF (make_checks dc modifier (100 * fuel) g pos)).outcome = some b →
      ∃ res, craft fuel dc modifier req nS nCF g pos = some res := by
  intro fuel
  induction fuel with
  | zero => intro req nS nCF pos b h; simp [make_checks, craftLoop] at h
  | succ fuel ih =>
    intro req nS nCF pos b h
    have hsplit : make_checks dc modifier (100 * (fuel + 1)) g pos =
        make_checks dc modifier 100 g pos ++
          make_checks dc modifier (100 * fuel) g (pos + 100) := by
      rw [show 100 * (fuel + 1) = 100 + 100 * fuel from by ring, make_checks_add]
    rw [hsplit] at h
    cases hout : (craftLoop req nS nCF (make_checks dc modifier 100 g pos)).outcome with
    | some b2 =>
      exact ⟨_, craft_succ_resolved (LoopRes_eta_some hout) fuel⟩
    | none =>
      rw [craftLoop_append_of_none _ hout] at h
      simp only at h
      obtain ⟨res, hres⟩ := ih h
      obtain ⟨b3, k3, p3⟩ := res
      refine ⟨(b3, 100 + k3, p3), ?_⟩
      rw [craft_succ_cont (LoopRes_eta_none hout) fuel, hres]

/-- C7: for every configuration and every roll stream, the recursion of
`craft` terminates outright — some finite recursion depth returns a result
(a fortiori, the source recursion terminates with probability 1 for any
finite `required_successes`): either the check stream carries enough
successes to reach the target, or from some point on every check fails and
three consecutive failures force resolution. -/
theorem craft_terminates (dc modifier req : Int) (g : Nat → Nat) (pos : Nat) :
    ∃ fuel res, craft fuel dc modifier req 0 0 g pos = some res := by
  obtain ⟨n, hn⟩ :=
    craftLoop_stream_terminates (fun i => checkAt dc modifier g (pos + i)) req 0 0 le_rfl
  have hmc : ∀ m, (List.range m).map (fun i => checkAt dc modifier g (pos + i)) =
      make_checks dc modifier m g pos := fun m => rfl
  rw [hmc] at hn
  cases hres : (craftLoop req 0 0 (make_checks dc modifier n g pos)).outcome with
  | none => exact absurd hres hn
  | some b =>
    have hext : (craftLoop req 0 0 (make_checks dc modifier (100 * n) g pos)).outcome =
        some b := by
      by_cases hzero : n = 0
      · subst hzero
        simp [make_checks, craftLoop] at hres
      · rw [show 100 * n = n + (100 * n - n) from by omega, make_checks_add]
        rw [craftLoop_append_of_some _ hres]
        exact hres
    obtain ⟨res, hcr⟩ := craft_of_loop_resolves n hext
    exact ⟨n, res, hcr⟩

/-- C10: every `craft` invocation draws the full 100-value chunk from the
stream before it returns or recurses, so when `craft` returns, the stream
position has advanced by at least 100 and by a multiple of 100, and the
number of check results actually processed never exceeds the number of
values drawn — even when the attempt resolves after fewer than 100 checks
the position still advances by the full chunk. -/
theorem craft_advances_stream_by_chunks :
    ∀ (fuel : Nat) (dc modifier req nS nCF : Int) (g : Nat → Nat) (pos : Nat)
      (b : Bool) (n p : Nat),
      craft fuel dc modifier req nS nCF g pos = some (b, n, p) →
      pos + 100 ≤ p ∧ 100 ∣ (p - pos) ∧ n ≤ p - pos := by
  intro fuel
  induction fuel with
  | zero => intro dc modifier req nS nCF g pos b n p h; simp [craft] at h
  | succ fuel ih =>
    intro dc modifier req nS nCF g pos b n p h
    cases hout : (craftLoop req nS nCF (make_checks dc modifier 100 g pos)).outcome with
    | some b2 =>
      rw [craft_succ_resolved (LoopRes_eta_some hout) fuel] at h
      simp only [Option.some.injEq, Prod.mk.injEq] at h
      obtain ⟨hb, hn, hp⟩ := h
      subst hn
      subst hp
      have hcle : (craftLoop req nS nCF (make_checks dc modifier 100 g pos)).consumed ≤
          100 := by
        have hle := @craftLoop_consumed_le req
            (make_checks dc modifier 100 g pos) nS nCF
        rwa [make_checks_length] at hle
      exact ⟨le_rfl, by omega, by omega⟩
    | none =>
      rw [craft_succ_cont (LoopRes_eta_none hout) fuel] at h
      cases hrec : craft fuel dc modifier req
          (craftLoop req nS nCF (make_checks dc modifier 100 g pos)).nS
          (craftLoop req nS nCF (make_checks dc modifier 100 g pos)).nCF g (pos + 100) with
      | none => rw [hrec] at h; simp at h
      | some t =>
        obtain ⟨b3, k3, p3⟩ := t
        rw [hrec] at h
        simp only [Option.some.injEq, Prod.mk.injEq] at h
        obtain ⟨hb, hn, hp⟩ := h
        subst hn
        subst hp
        obtain ⟨d1, d2, d3⟩ := ih dc modifier req _ _ g (pos + 100) b3 k3 p3 hrec
        exact ⟨by omega, by omega, by omega⟩

/-- Witness for C10: the attempt that resolves after 3 processed checks
still advances the stream position from 0 to 100. -/
theorem craft_advances_stream_by_chunks_witness :
    (0 : Nat) + 100 ≤ 100 ∧ 100 ∣ (100 - 0) ∧ 3 ≤ 100 - 0 := by
  have h : craft 1 21 0 1 0 0 gZero 0 = some (false, 3, 100) :=
    craft_succ_resolved
      (craftLoop_allFalse (make_checks_all_false (by norm_num) 100 gZero 0)
        (by rw [make_checks_length]; norm_num)) 0
  exact craft_advances_stream_by_chunks 1 21 0 1 0 0 gZero 0 false 3 100 h

/-- C9: `make_checks` produces exactly `n` booleans, the `i`-th being
`(r_i + modifier) ≥ threshold` where `r_i` is the `i`-th d20 value produced
by `roll` for the same stream positions, each lying in `[1, 20]`; `n = 0`
gives the empty sequence. -/
theorem make_checks_spec (dc modifier : Int) (n : Nat) (g : Nat → Nat) (pos : Nat)
    (rs : List Int) (h : roll 20 n g pos = Except.ok rs) :
    rs.length = n ∧
      (∀ i, i < n →
        1 ≤ rs.getD i 0 ∧ rs.getD i 0 ≤ 20 ∧
          (make_checks dc modifier n g pos).getD i false =
            decide (dc ≤ rs.getD i 0 + modifier)) ∧
      make_checks dc modifier 0 g pos = [] := by
  rw [roll_d20_eq] at h
  injection h with h
  subst h
  refine ⟨by simp, ?_, by simp [make_checks]⟩
  intro i hi
  have hgetr : ((List.range n).map fun j => ((rollD20 g (pos + j) : Nat) : Int)).getD i 0 =
      ((rollD20 g (pos + i) : Nat) : Int) := by
    rw [List.getD_eq_getElem?_getD, List.getElem?_map, List.getElem?_range hi]
    rfl
  have hgetc : (make_checks dc modifier n g pos).getD i false =
      checkAt dc modifier g (pos + i) := by
    rw [make_checks, List.getD_eq_getElem?_getD, List.getElem?_map,
      List.getElem?_range hi]
    rfl
  rw [hgetr, hgetc]
  refine ⟨?_, ?_, rfl⟩
  · exact_mod_cast one_le_rollD20 g (pos + i)
  · exact_mod_cast rollD20_le g (pos + i)

/-- Witness for C9 at `n = 2` on the all-ones stream. -/
theorem make_checks_spec_witness :
    ([1, 1] : List Int).length = 2 ∧ (1 : Int) ≤ ([1, 1] : List Int).getD 0 0 ∧
      ([1, 1] : List Int).getD 0 0 ≤ 20 ∧
      (make_checks 10 0 2 gZero 0).getD 0 false =
        decide ((10 : Int) ≤ ([1, 1] : List Int).getD 0 0 + 0) ∧
      make_checks 10 0 0 gZero 0 = [] := by
  have h := make_checks_spec 10 0 2 gZero 0 [1, 1] rfl
  obtain ⟨h1, h2, h3⟩ := h
  have h0 := h2 0 (by norm_num)
  exact ⟨h1, h0.1, h0.2.1, h0.2.2, h3⟩

/-- C5 counterexample: with the trial count set to 0 the driver does not
raise a configuration error at the boundary: it runs the empty trial loop
and fails with `ZeroDivisionError` at the aggregation step; and `roll` with
`sides = 0` raises numpy's `ValueError` only when invoked, there being no
validation anywhere. -/
theorem no_boundary_validation_cex :
    driverOutput 1 18 9 8 0 gZero = some (Except.error PyErr.zeroDivisionError) ∧
      PyErr.zeroDivisionError ≠ PyErr.configError ∧
      roll 0 1 gZero 0 = Except.error PyErr.valueError :=
  ⟨rfl, by decide, rfl⟩

/-- C5 amended: the code performs no boundary validation: `roll` with
`sides < 1` yields numpy's `ValueError` when called; the driver with
`trials < 1` runs the empty trial loop and then raises `ZeroDivisionError`
at the aggregation step; and no error the driver can raise is the
descriptive configuration error the spec asks for. -/
theorem invalid_config_behavior :
    (∀ (die : Int) (number : Nat) (g : Nat → Nat) (pos : Nat), die < 1 →
        roll die number g pos = Except.error PyErr.valueError) ∧
    (∀ (fuel : Nat) (dc modifier req trials : Int) (g : Nat → Nat), trials < 1 →
        driverOutput fuel dc modifier req trials g =
          some (Except.error PyErr.zeroDivisionError)) ∧
    (∀ (fuel : Nat) (dc modifier req trials : Int) (g : Nat → Nat) (e : PyErr),
        driverOutput fuel dc modifier req trials g = some (Except.error e) →
        e = PyErr.zeroDivisionError) := by
  refine ⟨?_, ?_, ?_⟩
  · intro die number g pos hdie
    simp [roll, if_pos hdie]
  · intro fuel dc modifier req trials g htr
    have h0 : trials.toNat = 0 := by omega
    simp [driverOutput, h0, runTrials]
  · intro fuel dc modifier req trials g e h
    unfold driverOutput at h
    cases hrt : runTrials fuel dc modifier req trials.toNat g 0 with
    | none => rw [hrt] at h; simp at h
    | some t =>
      obtain ⟨results, p⟩ := t
      rw [hrt] at h
      dsimp only at h
      by_cases hlen : results.length = 0
      · rw [if_pos hlen] at h
        simp only [Option.some.injEq, Except.error.injEq] at h
        exact h.symm
      · rw [if_neg hlen] at h
        simp at h

/-- Witness for the amended C5 at `sides = 0` and `trials = 0`. -/
theorem invalid_config_behavior_witness :
    (0 : Int) < 1 ∧ roll 0 1 gZero 0 = Except.error PyErr.valueError ∧
      driverOutput 1 18 9 8 0 gZero = some (Except.error PyErr.zeroDivisionError) :=
  ⟨by norm_num, invalid_config_behavior.1 0 1 gZero 0 (by norm_num),
    invalid_config_behavior.2.1 1 18 9 8 0 gZero (by norm_num)⟩

lemma count_true_add_count_false (l : List Bool) :
    l.count true + l.count false = l.length := by
  induction l with
  | nil => simp
  | cons r rest ih =>
    cases r <;> simp [List.count_cons] <;> omega

lemma runTrials_length {fuel : Nat} {dc modifier req : Int} :
    ∀ {n : Nat} {g : Nat → Nat} {pos : Nat} {results : List Bool} {p : Nat},
      runTrials fuel dc modifier req n g pos = some (results, p) →
      results.length = n := by
  intro n
  induction n with
  | zero =>
    intro g pos results p h
    simp only [runTrials, Option.some.injEq, Prod.mk.injEq] at h
    rw [← h.1]
    rfl
  | succ n ihn =>
    intro g pos results p h
    simp only [runTrials] at h
    cases hc : craft fuel dc modifier req 0 0 g pos with
    | none => rw [hc] at h; simp at h
    | some t =>
      obtain ⟨b, k, p2⟩ := t
      rw [hc] at h
      dsimp only at h
      cases hrt : runTrials fuel dc modifier req n g p2 with
      | none => rw [hrt] at h; simp at h
      | some t2 =>
        obtain ⟨bs, p3⟩ := t2
        rw [hrt] at h
        simp only [Option.some.injEq, Prod.mk.injEq] at h
        obtain ⟨hbs, hp⟩ := h
        rw [← hbs]
        simp [ihn hrt]

lemma pyRound_nonneg {q : ℚ} (h : 0 ≤ q) : 0 ≤ pyRound q := by
  have hf : (0 : Int) ≤ ⌊q⌋ := Int.floor_nonneg.mpr h
  unfold pyRound
  split_ifs <;> omega

lemma pyRound_le_hundred {q : ℚ} (h : q ≤ 100) : pyRound q ≤ 100 := by
  have hf : ⌊q⌋ ≤ 100 := by
    have hff := Int.floor_le_floor h
    simpa using hff
  have hfl : (⌊q⌋ : ℚ) ≤ q := Int.floor_le q
  unfold pyRound
  split_ifs with h1 h2 h3
  · exact hf
  · have hlt : (⌊q⌋ : ℚ) < 100 := by linarith
    have : ⌊q⌋ < (100 : Int) := by exact_mod_cast hlt
    omega
  · exact hf
  · have heq : q - ⌊q⌋ = 1 / 2 := by linarith
    have hlt : (⌊q⌋ : ℚ) < 100 := by linarith
    have : ⌊q⌋ < (100 : Int) := by exact_mod_cast hlt
    omega

lemma pyRound_nearest (q : ℚ) : |(pyRound q : ℚ) - q| ≤ 1 / 2 := by
  have h0 : (⌊q⌋ : ℚ) ≤ q := Int.floor_le q
  have h1 : q < ⌊q⌋ + 1 := Int.lt_floor_add_one q
  unfold pyRound
  split_ifs with ha hb hc
  · rw [abs_le]
    constructor <;> push_cast <;> linarith
  · rw [abs_le]
    constructor <;> push_cast <;> linarith
  · rw [abs_le]
    constructor <;> push_cast <;> linarith
  · rw [abs_le]
    constructor <;> push_cast <;> linarith

/-- C8: whenever the driver's trial loop completes (any parameters,
`trials ≥ 1`), the program's only output is the single line
`percent failure:<integer>`, where `<integer>` is
`100 * failures / trials` (failures counted over the trial outcomes)
rounded to a nearest integer (ties to even, as Python's `:.0f` does), and
that integer lies in `[0, 100]`; the `__main__` constants
`dc = 18, modifier = 9, successes_required = 8, n_repeats = 10000` are an
instance. -/
theorem driver_output_format_and_bounds (fuel : Nat) (dc modifier req trials : Int)
    (g : Nat → Nat) (results : List Bool) (p : Nat)
    (h : runTrials fuel dc modifier req trials.toNat g 0 = some (results, p))
    (htr : 1 ≤ trials) :
    results.length = trials.toNat ∧
      driverOutput fuel dc modifier req trials g =
        some (Except.ok ("percent failure:" ++
          toString (pyRound (100 * (results.count false : ℚ) / (trials.toNat : ℚ))))) ∧
      0 ≤ pyRound (100 * (results.count false : ℚ) / (trials.toNat : ℚ)) ∧
      pyRound (100 * (results.count false : ℚ) / (trials.toNat : ℚ)) ≤ 100 ∧
      |(pyRound (100 * (results.count false : ℚ) / (trials.toNat : ℚ)) : ℚ) -
          100 * (results.count false : ℚ) / (trials.toNat : ℚ)| ≤ 1 / 2 := by
  have hlen := runTrials_length h
  have htn : 0 < trials.toNat := by omega
  have hlen0 : results.length ≠ 0 := by omega
  have hcnt := count_true_add_count_false results
  have htnq : (0 : ℚ) < (trials.toNat : ℚ) := by exact_mod_cast htn
  have hpf : percentFailure results =
      100 * (results.count false : ℚ) / (trials.toNat : ℚ) := by
    rw [percentFailure, hlen]
    have hc : (results.count true : ℚ) =
        (trials.toNat : ℚ) - (results.count false : ℚ) := by
      have hcc : results.count true + results.count false = trials.toNat := by
        rw [← hlen]
        exact hcnt
      have := congrArg (fun x : Nat => (x : ℚ)) hcc
      push_cast at this
      linarith
    rw [hc]
    field_simp
    ring
  have hql : 0 ≤ 100 * (results.count false : ℚ) / (trials.toNat : ℚ) := by
    positivity
  have hqu : 100 * (results.count false : ℚ) / (trials.toNat : ℚ) ≤ 100 := by
    rw [div_le_iff htnq]
    have hcf : results.count false ≤ trials.toNat := by
      rw [← hlen]
      exact List.count_le_length _ _
    have hcfq : (results.count false : ℚ) ≤ (trials.toNat : ℚ) := by exact_mod_cast hcf
    linarith
  refine ⟨hlen, ?_, pyRound_nonneg hql, pyRound_le_hundred hqu, pyRound_nearest _⟩
  unfold driverOutput
  rw [h]
  dsimp only
  rw [if_neg hlen0, hpf]

/-- Witness for C8 at one trial with an impossible threshold: the single
trial fails and the printed line is `percent failure:100`. -/
theorem driver_output_format_and_bounds_witness :
    runTrials 1 21 0 1 (1 : Int).toNat gZero 0 = some ([false], 100) ∧
      driverOutput 1 21 0 1 1 gZero =
        some (Except.ok ("percent failure:" ++
          toString (pyRound (100 * (([false] : List Bool).count false : ℚ) /
            (((1 : Int)).toNat : ℚ))))) := by
  have hrt : runTrials 1 21 0 1 (1 : Int).toNat gZero 0 = some ([false], 100) := by
    have hcraft : craft 1 21 0 1 0 0 gZero 0 = some (false, 3, 100) :=
      craft_succ_resolved
        (craftLoop_allFalse (make_checks_all_false (by norm_num) 100 gZero 0)
          (by rw [make_checks_length]; norm_num)) 0
    simp only [runTrials, hcraft]
  exact ⟨hrt,
    (driver_output_format_and_bounds 1 21 0 1 1 gZero [false] 100 hrt (by norm_num)).2.1⟩
